import Mathlib

/-!
Verification development for `lightning_uq_box/models/cards.py`.

The file shallowly embeds the CARDS model utilities: the `NoiseScheduler`
(beta schedules for diffusion training and the derived cumulative-product
quantities), the time-step lookup `get_noisy_x_at_t`, the conditional
linear/gated layers (`ConditionalLinear`, `DiffusionSequential`), and the
guided models (`ConditionalGuidedLinearModel`, `ConditionalGuidedConvModel`).

Python floats are modelled by real numbers; tensors by lists (1-D), by a
shape/flat-data record (arbitrary rank), or by a rows/cols/entry record
(2-D).  Fallible construction (Python `assert`, `ZeroDivisionError`,
`KeyError`) is modelled with `Except`.
-/

set_option autoImplicit false
set_option linter.unusedVariables false

open scoped BigOperators

noncomputable section

/-- `torch.linspace a b steps`: `steps` evenly spaced values from `a` to `b`;
entry `i` is `a + (b - a) * i / (steps - 1)`.  (For `steps = 1` torch returns
`[a]`, which the formula also yields here since division by zero is zero.) -/
def linspace (a b : ℝ) (steps : ℕ) : List ℝ :=
  (List.range steps).map (fun i : ℕ => a + (b - a) * (i : ℝ) / ((steps - 1 : ℕ) : ℝ))

/-- `torch.sigmoid`, the elementwise logistic function `1 / (1 + exp (-x))`. -/
def sigmoid_fn (x : ℝ) : ℝ := 1 / (1 + Real.exp (-x))

/-- `NoiseScheduler.valid_schedules` (note: seven entries, including `"jsd"`). -/
def NoiseScheduler.valid_schedules : List String :=
  ["linear", "const", "quad", "jsd", "sigmoid", "cosine", "cosine_anneal"]

/-- `NoiseScheduler.linear_schedule`: `torch.linspace(beta_start, beta_end, n_steps)`. -/
def NoiseScheduler.linear_schedule (beta_start beta_end : ℝ) (n_steps : ℕ) : List ℝ :=
  linspace beta_start beta_end n_steps

/-- `NoiseScheduler.constant_schedule`: `beta_end * torch.ones(n_steps)`. -/
def NoiseScheduler.constant_schedule (beta_end : ℝ) (n_steps : ℕ) : List ℝ :=
  (List.replicate n_steps (1 : ℝ)).map (fun o => beta_end * o)

/-- `NoiseScheduler.quadratic_schedule`:
`torch.linspace(beta_start ** 0.5, beta_end ** 0.5, n_steps) ** 2`. -/
def NoiseScheduler.quadratic_schedule (beta_start beta_end : ℝ) (n_steps : ℕ) : List ℝ :=
  (linspace (beta_start ^ ((1 : ℝ) / 2)) (beta_end ^ ((1 : ℝ) / 2)) n_steps).map
    (fun v => v ^ 2)

/-- `NoiseScheduler.sigmoid_schedule`:
`betas = torch.sigmoid(torch.linspace(-6, 6, n_steps)) * (beta_end - beta_start) + beta_start`
followed by `return torch.sigmoid(betas)` (the logistic function is applied twice). -/
def NoiseScheduler.sigmoid_schedule (beta_start beta_end : ℝ) (n_steps : ℕ) : List ℝ :=
  ((((linspace (-6) 6 n_steps).map sigmoid_fn).map
    (fun s => s * (beta_end - beta_start) + beta_start)).map sigmoid_fn)

/-- `NoiseScheduler.cosine_schedule`: entry `i` is
`min (1 - cos²(g (i+1)) / cos²(g i)) max_beta` where
`g k = ((k / n_steps) + cosine_s) / (1 + cosine_s) * π / 2`,
`max_beta = 0.999`, `cosine_s = 0.008`. -/
def NoiseScheduler.cosine_schedule (n_steps : ℕ) : List ℝ :=
  (List.range n_steps).map (fun i : ℕ =>
    min
      (1 -
        (Real.cos ((((i : ℝ) + 1) / n_steps + 0.008) / (1 + 0.008) * Real.pi / 2)) ^ 2 /
        (Real.cos (((i : ℝ) / n_steps + 0.008) / (1 + 0.008) * Real.pi / 2)) ^ 2)
      0.999)

/-- `NoiseScheduler.cosine_anneal_schedule`:
`[beta_start + 0.5 * (beta_end - beta_start) * (1 - cos(t / (n_steps - 1) * π)) for t in range(n_steps)]`.
In Python the integer division `t / (n_steps - 1)` raises `ZeroDivisionError`
exactly when the comprehension body runs with `n_steps - 1 == 0`, i.e. exactly
when `n_steps = 1` (for `n_steps = 0` the range is empty and nothing is
evaluated); we model that failure with `none`. -/
def NoiseScheduler.cosine_anneal_schedule (beta_start beta_end : ℝ) (n_steps : ℕ) :
    Option (List ℝ) :=
  if n_steps = 1 then none
  else
    some ((List.range n_steps).map (fun t : ℕ =>
      beta_start + 0.5 * (beta_end - beta_start) *
        (1 - Real.cos ((t : ℝ) / ((n_steps - 1 : ℕ) : ℝ) * Real.pi))))

/-- The failures `NoiseScheduler.__init__` can raise: the `assert` on
`valid_schedules` (carrying the enumerated kinds of its message), the
`ZeroDivisionError` from `cosine_anneal_schedule`, and the `KeyError` from
looking the schedule up in the betas dict. -/
inductive NoiseScheduler.InitError : Type where
  | invalidSchedule (validKinds : List String) : NoiseScheduler.InitError
  | divisionByZero : NoiseScheduler.InitError
  | keyError (key : String) : NoiseScheduler.InitError
deriving DecidableEq

/-- `NoiseScheduler.__init__`: first the `assert schedule in valid_schedules`,
then the dict literal `{"linear": ..., "const": ..., "quad": ..., "sigmoid": ...,
"cosine": ..., "cosine_anneal": ...}` — whose six values are all evaluated
eagerly before the lookup, so a `ZeroDivisionError` in `cosine_anneal_schedule`
fires for every schedule kind — and finally the lookup `[schedule]`, which
raises `KeyError` for `"jsd"` (the one member of `valid_schedules` that is not
a key of the dict).  Returns the selected `betas` sequence. -/
def NoiseScheduler.init (schedule : String) (n_steps : ℕ) (beta_start beta_end : ℝ) :
    Except NoiseScheduler.InitError (List ℝ) :=
  if schedule ∈ NoiseScheduler.valid_schedules then
    match NoiseScheduler.cosine_anneal_schedule beta_start beta_end n_steps with
    | none => .error .divisionByZero
    | some ca =>
      if schedule = "linear" then .ok (NoiseScheduler.linear_schedule beta_start beta_end n_steps)
      else if schedule = "const" then .ok (NoiseScheduler.constant_schedule beta_end n_steps)
      else if schedule = "quad" then
        .ok (NoiseScheduler.quadratic_schedule beta_start beta_end n_steps)
      else if schedule = "sigmoid" then
        .ok (NoiseScheduler.sigmoid_schedule beta_start beta_end n_steps)
      else if schedule = "cosine" then .ok (NoiseScheduler.cosine_schedule n_steps)
      else if schedule = "cosine_anneal" then .ok ca
      else .error (.keyError schedule)
  else .error (.invalidSchedule NoiseScheduler.valid_schedules)

/-- `torch.Tensor.cumprod(dim=0)` on a 1-D tensor: entry `i` is the product of
the first `i + 1` entries. -/
def cumprod (l : List ℝ) : List ℝ :=
  (List.range l.length).map (fun i => (l.take (i + 1)).prod)

/-- `self.alphas = 1.0 - self.betas`. -/
def NoiseScheduler.alphas (betas : List ℝ) : List ℝ := betas.map (fun b => 1 - b)

/-- `self.alphas_cumprod = self.alphas.cumprod(dim=0)`. -/
def NoiseScheduler.alphas_cumprod (betas : List ℝ) : List ℝ :=
  cumprod (NoiseScheduler.alphas betas)

/-- `self.betas_sqrt = torch.sqrt(self.betas)`. -/
def NoiseScheduler.betas_sqrt (betas : List ℝ) : List ℝ := betas.map Real.sqrt

/-- `self.alphas_bar_sqrt = torch.sqrt(self.alphas_cumprod)`. -/
def NoiseScheduler.alphas_bar_sqrt (betas : List ℝ) : List ℝ :=
  (NoiseScheduler.alphas_cumprod betas).map Real.sqrt

/-- `self.one_minus_alphas_bar_sqrt = torch.sqrt(1 - self.alphas_cumprod)`. -/
def NoiseScheduler.one_minus_alphas_bar_sqrt (betas : List ℝ) : List ℝ :=
  (NoiseScheduler.alphas_cumprod betas).map (fun a => Real.sqrt (1 - a))

/-- The six schedule kinds named by the specification (the spec's list omits
`"jsd"`). -/
def sixNamedKinds : List String :=
  ["linear", "const", "quad", "sigmoid", "cosine", "cosine_anneal"]

/-- The sigmoid schedule as the specification describes it: `n_steps` evenly
spaced values in `[-6, 6]`, each passed through the logistic function, affinely
mapped by multiplying with `beta_end - beta_start` and adding `beta_start`,
and then each resulting value passed through the logistic function a second
time. -/
def sigmoidScheduleSpec (beta_start beta_end : ℝ) (n_steps : ℕ) : List ℝ :=
  (linspace (-6) 6 n_steps).map
    (fun z => sigmoid_fn (sigmoid_fn z * (beta_end - beta_start) + beta_start))

/-- A tensor of arbitrary rank: a shape together with the flat data. -/
structure STensor : Type where
  shape : List ℕ
  data : List ℝ

/-- The rank (number of dimensions) of an `STensor`. -/
def STensor.rank (x : STensor) : ℕ := x.shape.length

/-- `torch.gather(input, 0, t)` for a 1-D `input` and 1-D index tensor `t`:
entry `j` of the output is `input[t[j]]`. -/
def gather0 (input : List ℝ) (t : List ℕ) : List ℝ :=
  t.map (fun i => input.getD i 0)

/-- `torch.Tensor.reshape`: succeeds (keeping the flat data) iff the requested
shape has the same number of elements. -/
def STensor.reshape (x : STensor) (s : List ℕ) : Option STensor :=
  if s.prod = x.shape.prod then some ⟨s, x.data⟩ else none

/-- `NoiseScheduler.get_noisy_x_at_t(input, t, x)`:
`out = torch.gather(input, 0, t)` followed by
`out.reshape(t.shape[0], 1, ..., 1)` with `len(x.shape) - 1` trailing ones. -/
def NoiseScheduler.get_noisy_x_at_t (input : List ℝ) (t : List ℕ) (x : STensor) :
    Option STensor :=
  STensor.reshape ⟨[t.length], gather0 input t⟩
    (t.length :: List.replicate (x.shape.length - 1) 1)

/-- A 2-D tensor: row count, column count, and the entry function.
Entries outside the stated bounds are junk and never inspected by the
theorems below. -/
structure Tensor2 : Type where
  rows : ℕ
  cols : ℕ
  entry : ℕ → ℕ → ℝ

/-- Concatenation of two 2-D tensors along dimension 1 (the feature/column
dimension, which is also `dim=-1` for 2-D tensors). -/
def hcat (a b : Tensor2) : Tensor2 :=
  ⟨a.rows, a.cols + b.cols, fun i j => if j < a.cols then a.entry i j else b.entry i (j - a.cols)⟩

/-- `torch.cat((a, b, c, ...), dim=1)` modelled as iterated binary
concatenation of the first tensor with the remaining ones. -/
def catDim1 (a : Tensor2) (rest : List Tensor2) : Tensor2 :=
  rest.foldl hcat a

/-- Elementwise product of two 2-D tensors (`x * y` on equal-shaped tensors). -/
def mulT (a b : Tensor2) : Tensor2 :=
  ⟨a.rows, a.cols, fun i j => a.entry i j * b.entry i j⟩

/-- `ConditionalLinear`: a linear transform (`self.lin`, weight of shape
`[n_outputs, n_inputs]` plus bias) together with the learned per-time-step
gate table (`self.embed`, one row of length `n_outputs` per step). -/
structure ConditionalLinear : Type where
  n_inputs : ℕ
  n_outputs : ℕ
  n_steps : ℕ
  weight : ℕ → ℕ → ℝ
  bias : ℕ → ℝ
  embed : ℕ → ℕ → ℝ

/-- `ConditionalLinear.forward`: `out = self.lin(x)`, `gamma = self.embed(t)`,
`return gamma.view(-1, n_outputs) * out`.  When `t` holds a single index the
gate row broadcasts across the batch; otherwise row `i` is gated by `t[i]`. -/
def ConditionalLinear.forward (cl : ConditionalLinear) (x : Tensor2) (t : List ℕ) : Tensor2 :=
  let out : Tensor2 :=
    ⟨x.rows, cl.n_outputs, fun i j =>
      (∑ k ∈ Finset.range cl.n_inputs, cl.weight j k * x.entry i k) + cl.bias j⟩
  ⟨out.rows, cl.n_outputs, fun i j =>
    cl.embed (t.getD (if t.length = 1 then 0 else i) 0) j * out.entry i j⟩

/-- `nn.Linear`: `out[i, j] = Σ_k weight[j, k] * x[i, k] + bias[j]`. -/
structure LinearLayer : Type where
  in_features : ℕ
  out_features : ℕ
  weight : ℕ → ℕ → ℝ
  bias : ℕ → ℝ

/-- Application of an `nn.Linear` layer to a `[batch, in_features]` tensor. -/
def LinearLayer.apply (l : LinearLayer) (x : Tensor2) : Tensor2 :=
  ⟨x.rows, l.out_features, fun i j =>
    (∑ k ∈ Finset.range l.in_features, l.weight j k * x.entry i k) + l.bias j⟩

/-- A stage of a `DiffusionSequential` pipeline: a `ConditionalLinear` layer
(which consumes the time-step signal), a plain `nn.Linear`, an elementwise
activation module (e.g. `nn.Softplus`), or an external normalization module
(`nn.BatchNorm1d`, a framework collaborator modelled as an opaque map). -/
inductive DLayer : Type where
  | condLinear (cl : ConditionalLinear) : DLayer
  | linear (l : LinearLayer) : DLayer
  | activation (f : ℝ → ℝ) : DLayer
  | batchNorm (f : Tensor2 → Tensor2) : DLayer

/-- One dispatch step of `DiffusionSequential.forward`: a `ConditionalLinear`
module is invoked as `module(input, t)`, every other module as
`module(input)`. -/
def DLayer.apply : DLayer → Tensor2 → List ℕ → Tensor2
  | .condLinear cl, x, t => cl.forward x t
  | .linear l, x, _ => l.apply x
  | .activation f, x, _ => ⟨x.rows, x.cols, fun i j => f (x.entry i j)⟩
  | .batchNorm f, x, _ => f x

/-- `DiffusionSequential.forward`: fold the stages over the running
activation, passing `t` only to the `ConditionalLinear` stages. -/
def DiffusionSequential.forward (layers : List DLayer) (input : Tensor2) (t : List ℕ) :
    Tensor2 :=
  layers.foldl (fun acc l => l.apply acc t) input

/-- `nn.Softplus` with default parameters: `log (1 + exp x)`. -/
def softplus (x : ℝ) : ℝ := Real.log (1 + Real.exp x)

/-- The randomly initialized learnable parameters consumed by
`ConditionalGuidedLinearModel.__init__`: for each hidden layer index the
`ConditionalLinear` weight, bias and embedding table, and the final plain
linear layer's weight and bias. -/
structure WeightInit : Type where
  condWeight : ℕ → ℕ → ℕ → ℝ
  condBias : ℕ → ℕ → ℝ
  condEmbed : ℕ → ℕ → ℕ → ℝ
  finalWeight : ℕ → ℕ → ℝ
  finalBias : ℕ → ℝ

/-- `ConditionalGuidedLinearModel`: configuration plus the assembled
`DiffusionSequential` stack. -/
structure ConditionalGuidedLinearModel : Type where
  n_steps : ℕ
  x_dim : ℕ
  y_dim : ℕ
  cat_x : Bool
  cat_y_pred : Bool
  model : List DLayer

/-- `ConditionalGuidedLinearModel.__init__`:
`data_dim = y_dim (+ x_dim if cat_x) (+ y_dim if cat_y_pred)`;
`layer_sizes = [data_dim] + n_hidden`; for each consecutive pair a
`ConditionalLinear` followed by the activation; finally one plain
`nn.Linear(layer_sizes[-1], n_outputs)`. -/
def mkConditionalGuidedLinearModel (n_steps x_dim y_dim : ℕ) (n_hidden : List ℕ)
    (n_outputs : ℕ) (cat_x cat_y_pred : Bool) (activation_fn : ℝ → ℝ) (w : WeightInit) :
    ConditionalGuidedLinearModel :=
  let data_dim := y_dim + (if cat_x then x_dim else 0) + (if cat_y_pred then y_dim else 0)
  let layer_sizes := data_dim :: n_hidden
  { n_steps := n_steps
    x_dim := x_dim
    y_dim := y_dim
    cat_x := cat_x
    cat_y_pred := cat_y_pred
    model :=
      ((List.range n_hidden.length).flatMap (fun idx =>
        [DLayer.condLinear
          ⟨layer_sizes.getD idx 0, layer_sizes.getD (idx + 1) 0, n_steps,
            w.condWeight idx, w.condBias idx, w.condEmbed idx⟩,
          DLayer.activation activation_fn])) ++
      [DLayer.linear ⟨layer_sizes.getLastD 0, n_outputs, w.finalWeight, w.finalBias⟩] }

/-- `ConditionalGuidedLinearModel.forward`: build `eps_pred` by the
`cat_x` / `cat_y_pred` case split —
`cat((y_t, y_0_hat, x))`, `cat((y_t, x))`, `cat((y_t, y_0_hat))`, or `y_t` —
then `return self.model(eps_pred, t)`. -/
def ConditionalGuidedLinearModel.forward (m : ConditionalGuidedLinearModel)
    (x y_t y_0_hat : Tensor2) (t : List ℕ) : Tensor2 :=
  let eps_pred :=
    if m.cat_x then
      if m.cat_y_pred then catDim1 y_t [y_0_hat, x] else catDim1 y_t [x]
    else
      if m.cat_y_pred then catDim1 y_t [y_0_hat] else y_t
  DiffusionSequential.forward m.model eps_pred t

/-- The network input as the specification describes it: the concatenation,
in the fixed order `[y_t, y_0_hat, x]`, of exactly the components enabled by
the flags (`y_t` always, `y_0_hat` iff `cat_y_pred`, `x` iff `cat_x`). -/
def specInput (cat_x cat_y_pred : Bool) (x y_t y_0_hat : Tensor2) : Tensor2 :=
  catDim1 y_t ((if cat_y_pred then [y_0_hat] else []) ++ (if cat_x then [x] else []))

/-- An encoder collaborator: a feature extractor together with the output
width of its final layer.

Modelled from the spec: `_get_output_layer_name_and_module` (imported from
`lightning_uq_box.uq_methods.utils`, which is not among the sources)
introspects the encoder's final linear-like layer, whose `out_features` is the
encoder's output width; we model the encoder as its forward map paired with
that introspectable width. -/
structure Encoder : Type where
  out_features : ℕ
  apply : Tensor2 → Tensor2

/-- The framework-initialized pieces consumed by
`ConditionalGuidedConvModel.__init__`: the `nn.BatchNorm1d` normalization
modules (opaque framework maps) and the connection `ConditionalLinear`'s
randomly initialized weight, bias and embedding table. -/
structure ConvWeights : Type where
  normF : Tensor2 → Tensor2
  connNormF : Tensor2 → Tensor2
  connWeight : ℕ → ℕ → ℝ
  connBias : ℕ → ℝ
  connEmbed : ℕ → ℕ → ℝ

/-- The `AssertionError`s `ConditionalGuidedConvModel.__init__` can raise, in
source order: `cat_x` must be false, `cat_y_pred` must be false, and
`encoder_out_features * 2` must equal the guide model's `y_dim`. -/
inductive ConvInitError : Type where
  | catXTrue : ConvInitError
  | catYPredTrue : ConvInitError
  | widthMismatch : ConvInitError
deriving DecidableEq

/-- `ConditionalGuidedConvModel`: the encoder, the inner guide model, the
step count, the `nn.BatchNorm1d` stage and the connection
`DiffusionSequential`. -/
structure ConditionalGuidedConvModel : Type where
  encoder : Encoder
  cond_guide_model : ConditionalGuidedLinearModel
  n_steps : ℕ
  norm : Tensor2 → Tensor2
  connect_module : List DLayer

/-- `ConditionalGuidedConvModel.__init__`: assert `cat_x is False`, assert
`cat_y_pred is False`, introspect `encoder_out_features`, assert
`encoder_out_features * 2 == cond_guide_model.y_dim`, then build
`self.norm = nn.BatchNorm1d(encoder_out_features)` and the connection module
`DiffusionSequential(ConditionalLinear(w, w, n_steps), nn.BatchNorm1d(w, w), nn.Softplus())`. -/
def ConditionalGuidedConvModel.init (encoder : Encoder)
    (cond_guide_model : ConditionalGuidedLinearModel) (w : ConvWeights) :
    Except ConvInitError ConditionalGuidedConvModel :=
  if cond_guide_model.cat_x then .error .catXTrue
  else if cond_guide_model.cat_y_pred then .error .catYPredTrue
  else if encoder.out_features * 2 = cond_guide_model.y_dim then
    .ok
      { encoder := encoder
        cond_guide_model := cond_guide_model
        n_steps := cond_guide_model.n_steps
        norm := w.normF
        connect_module :=
          [DLayer.condLinear
            ⟨encoder.out_features, encoder.out_features, cond_guide_model.n_steps,
              w.connWeight, w.connBias, w.connEmbed⟩,
            DLayer.batchNorm w.connNormF,
            DLayer.activation softplus] }
  else .error .widthMismatch

/-- Stands for Python `None`, passed by `ConditionalGuidedConvModel.forward`
for the unused `x` and `y_0_hat` arguments of the inner guide model (any use
of it would be an error in the Python code; the inner model's flags being
false, it is never inspected). -/
def noneTensor : Tensor2 := ⟨0, 0, fun _ _ => 0⟩

/-- `ConditionalGuidedConvModel.forward`:
`x = self.encoder(x)`, `x = self.norm(x)`, `x = self.connect_module(x, t)`,
`y = torch.cat([y_t, y_0_hat], dim=-1)`, `y = x * y`,
`return self.cond_guide_model(x=None, y_t=y, y_0_hat=None, t=t)`. -/
def ConditionalGuidedConvModel.forward (m : ConditionalGuidedConvModel)
    (x y_t y_0_hat : Tensor2) (t : List ℕ) : Tensor2 :=
  let x1 := m.encoder.apply x
  let x2 := m.norm x1
  let x3 := DiffusionSequential.forward m.connect_module x2 t
  let y := hcat y_t y_0_hat
  let y2 := mulT x3 y
  m.cond_guide_model.forward noneTensor y2 noneTensor t

/-- The conv-model forward pass as the specification describes it:
`encoded = encoder(x)`; batch-normalize; pass through the gated connection
layer with `t`; `y = [y_t, y_0_hat]` concatenated along the last dimension;
elementwise product of the connection output with `y`; and the inner
guided-linear model applied with `x = None`, `y_t` the product,
`y_0_hat = None` and the same `t`. -/
def convForwardSpec (m : ConditionalGuidedConvModel) (x y_t y_0_hat : Tensor2)
    (t : List ℕ) : Tensor2 :=
  m.cond_guide_model.forward noneTensor
    (mulT (DiffusionSequential.forward m.connect_module (m.norm (m.encoder.apply x)) t)
      (hcat y_t y_0_hat))
    noneTensor t

/-- A sequence is entrywise non-increasing. -/
def EntrywiseNonIncreasing (l : List ℝ) : Prop :=
  ∀ i, i + 1 < l.length → l.getD (i + 1) 0 ≤ l.getD i 0

/-- A sequence is strictly increasing in its indices. -/
def StrictlyIncreasingEntries (l : List ℝ) : Prop :=
  ∀ i j, i < j → j < l.length → l.getD i 0 < l.getD j 0

lemma getD_map_range {α : Type} (d : α) (f : ℕ → α) {n i : ℕ} (h : i < n) :
    ((List.range n).map f).getD i d = f i := by
  rw [List.getD_eq_getElem?_getD]
  simp [List.getElem?_map, List.getElem?_range, h]

lemma linspace_length (a b : ℝ) (n : ℕ) : (linspace a b n).length = n := by
  simp [linspace]

lemma linspace_getD (a b : ℝ) {n i : ℕ} (h : i < n) :
    (linspace a b n).getD i 0 = a + (b - a) * i / ((n - 1 : ℕ) : ℝ) := by
  simpa [linspace] using
    getD_map_range (0 : ℝ) (fun i : ℕ => a + (b - a) * (i : ℝ) / ((n - 1 : ℕ) : ℝ)) h

lemma ratio_mem_unit {n i : ℕ} (h : i < n) :
    0 ≤ (i : ℝ) / ((n - 1 : ℕ) : ℝ) ∧ (i : ℝ) / ((n - 1 : ℕ) : ℝ) ≤ 1 := by
  constructor
  · exact div_nonneg (Nat.cast_nonneg i) (Nat.cast_nonneg (n - 1))
  · rcases Nat.eq_zero_or_pos (n - 1) with h0 | hpos
    · simp [h0]
    · have hle : (i : ℝ) ≤ ((n - 1 : ℕ) : ℝ) := by
        exact_mod_cast Nat.le_sub_one_of_lt h
      have hd : (0 : ℝ) < ((n - 1 : ℕ) : ℝ) := by exact_mod_cast hpos
      exact (div_le_one hd).mpr hle

lemma linspace_mem_bounds {a b : ℝ} (hab : a ≤ b) {n : ℕ} {v : ℝ}
    (hv : v ∈ linspace a b n) : a ≤ v ∧ v ≤ b := by
  rcases List.mem_map.mp hv with ⟨i, hi, rfl⟩
  have h := ratio_mem_unit (List.mem_range.mp hi)
  have hrw : a + (b - a) * (i : ℝ) / ((n - 1 : ℕ) : ℝ)
      = a + (b - a) * ((i : ℝ) / ((n - 1 : ℕ) : ℝ)) := by ring
  rw [hrw]
  constructor
  · nlinarith [h.1, h.2]
  · nlinarith [h.1, h.2]

lemma sigmoid_fn_pos (x : ℝ) : 0 < sigmoid_fn x := by
  have h : (0 : ℝ) < 1 + Real.exp (-x) := by positivity
  exact div_pos one_pos h

lemma sigmoid_fn_lt_one (x : ℝ) : sigmoid_fn x < 1 := by
  have h : (0 : ℝ) < 1 + Real.exp (-x) := by positivity
  have h1 : (1 : ℝ) < 1 + Real.exp (-x) := by
    have := Real.exp_pos (-x)
    linarith
  calc sigmoid_fn x = 1 / (1 + Real.exp (-x)) := rfl
    _ < 1 := by rw [div_lt_one h]; exact h1

lemma cumprod_length (l : List ℝ) : (cumprod l).length = l.length := by
  simp [cumprod]

lemma cumprod_getD {l : List ℝ} {i : ℕ} (h : i < l.length) :
    (cumprod l).getD i 0 = (l.take (i + 1)).prod := by
  simpa [cumprod] using getD_map_range (0 : ℝ) (fun i => (l.take (i + 1)).prod) h

/-- Cumulative products of a sequence of entries in `(0, 1]` are entrywise
non-increasing. -/
lemma cumprod_entrywiseNonIncreasing {l : List ℝ}
    (h : ∀ a ∈ l, 0 < a ∧ a ≤ 1) : EntrywiseNonIncreasing (cumprod l) := by
  intro i hi
  rw [cumprod_length] at hi
  have hi1 : i < l.length := Nat.lt_of_succ_lt hi
  rw [cumprod_getD hi, cumprod_getD hi1]
  have hsucc : (l.take (i + 1 + 1)).prod = (l.take (i + 1)).prod * l.get ⟨i + 1, hi⟩ :=
    List.prod_take_succ l (i + 1) hi
  rw [hsucc]
  have hpos : 0 < (l.take (i + 1)).prod := by
    apply List.prod_pos
    intro a ha
    exact (h a (List.mem_of_mem_take ha)).1
  have hle : l.get ⟨i + 1, hi⟩ ≤ 1 := (h _ (List.get_mem l (i + 1) hi)).2
  nlinarith

lemma constant_schedule_length (be : ℝ) (n : ℕ) :
    (NoiseScheduler.constant_schedule be n).length = n := by
  simp [NoiseScheduler.constant_schedule]

lemma constant_schedule_mem {be : ℝ} {n : ℕ} {v : ℝ}
    (hv : v ∈ NoiseScheduler.constant_schedule be n) : v = be := by
  rcases List.mem_map.mp hv with ⟨o, ho, rfl⟩
  have h1 : o = 1 := List.eq_of_mem_replicate ho
  simp [h1]

lemma quadratic_schedule_length (bs be : ℝ) (n : ℕ) :
    (NoiseScheduler.quadratic_schedule bs be n).length = n := by
  simp [NoiseScheduler.quadratic_schedule, linspace]

lemma quadratic_schedule_mem_bounds {bs be : ℝ} (h0 : 0 < bs) (hab : bs ≤ be)
    {n : ℕ} {v : ℝ} (hv : v ∈ NoiseScheduler.quadratic_schedule bs be n) :
    bs ≤ v ∧ v ≤ be := by
  rcases List.mem_map.mp hv with ⟨u, hu, rfl⟩
  have hbe : 0 < be := lt_of_lt_of_le h0 hab
  have hsq_le : bs ^ ((1 : ℝ) / 2) ≤ be ^ ((1 : ℝ) / 2) :=
    Real.rpow_le_rpow h0.le hab (by norm_num)
  have hb := linspace_mem_bounds hsq_le hu
  have hs_pos : 0 < bs ^ ((1 : ℝ) / 2) := Real.rpow_pos_of_pos h0 _
  have h1 : (bs ^ ((1 : ℝ) / 2)) ^ 2 = bs := by
    rw [← Real.rpow_natCast (bs ^ ((1 : ℝ) / 2)) 2, ← Real.rpow_mul h0.le]
    norm_num
  have h2 : (be ^ ((1 : ℝ) / 2)) ^ 2 = be := by
    rw [← Real.rpow_natCast (be ^ ((1 : ℝ) / 2)) 2, ← Real.rpow_mul hbe.le]
    norm_num
  constructor
  · nlinarith [hb.1, hb.2]
  · nlinarith [hb.1, hb.2]

lemma sigmoid_schedule_length (bs be : ℝ) (n : ℕ) :
    (NoiseScheduler.sigmoid_schedule bs be n).length = n := by
  simp [NoiseScheduler.sigmoid_schedule, linspace]

lemma sigmoid_schedule_mem {bs be : ℝ} {n : ℕ} {v : ℝ}
    (hv : v ∈ NoiseScheduler.sigmoid_schedule bs be n) : 0 < v ∧ v < 1 := by
  rcases List.mem_map.mp hv with ⟨u, _, rfl⟩
  exact ⟨sigmoid_fn_pos u, sigmoid_fn_lt_one u⟩

lemma cosine_schedule_length (n : ℕ) : (NoiseScheduler.cosine_schedule n).length = n := by
  simp [NoiseScheduler.cosine_schedule]

lemma theta_pos {r : ℝ} (h0 : 0 ≤ r) : 0 < (r + 0.008) / (1 + 0.008) * Real.pi / 2 := by
  have h8 : (0 : ℝ) < r + 0.008 := by linarith
  have hπ := Real.pi_pos
  have hq : (0 : ℝ) < (r + 0.008) / (1 + 0.008) := div_pos h8 (by norm_num)
  have := mul_pos hq hπ
  linarith

lemma theta_le_half_pi {r : ℝ} (h1 : r ≤ 1) :
    (r + 0.008) / (1 + 0.008) * Real.pi / 2 ≤ Real.pi / 2 := by
  have hπ := Real.pi_pos
  have hfrac : (r + 0.008) / (1 + 0.008) ≤ 1 := by
    rw [div_le_one (by norm_num)]
    linarith
  nlinarith [mul_nonneg (sub_nonneg.mpr hfrac) hπ.le]

lemma theta_lt_half_pi {r : ℝ} (h1 : r < 1) :
    (r + 0.008) / (1 + 0.008) * Real.pi / 2 < Real.pi / 2 := by
  have hπ := Real.pi_pos
  have hfrac : (r + 0.008) / (1 + 0.008) < 1 := by
    rw [div_lt_one (by norm_num)]
    linarith
  nlinarith [mul_pos (sub_pos.mpr hfrac) hπ]

lemma theta_strictMono {r r' : ℝ} (h : r < r') :
    (r + 0.008) / (1 + 0.008) * Real.pi / 2 <
      (r' + 0.008) / (1 + 0.008) * Real.pi / 2 := by
  have hπ := Real.pi_pos
  have hfrac : (r + 0.008) / (1 + 0.008) < (r' + 0.008) / (1 + 0.008) := by
    rw [div_lt_div_iff₀ (by norm_num) (by norm_num)]
    nlinarith
  nlinarith [mul_pos (sub_pos.mpr hfrac) hπ]

lemma cosine_schedule_mem {n : ℕ} (hn : 0 < n) {v : ℝ}
    (hv : v ∈ NoiseScheduler.cosine_schedule n) : 0 < v ∧ v < 1 := by
  rcases List.mem_map.mp hv with ⟨i, hi, rfl⟩
  have hin : i < n := List.mem_range.mp hi
  have hnR : (0 : ℝ) < n := by exact_mod_cast hn
  have hr1_nonneg : 0 ≤ (i : ℝ) / n := div_nonneg (Nat.cast_nonneg i) hnR.le
  have hr1_lt : (i : ℝ) / n < 1 := by
    rw [div_lt_one hnR]
    exact_mod_cast hin
  have hr2_le : ((i : ℝ) + 1) / n ≤ 1 := by
    rw [div_le_one hnR]
    have h1 : (i + 1 : ℕ) ≤ n := hin
    exact_mod_cast h1
  have hr12 : (i : ℝ) / n < ((i : ℝ) + 1) / n := by
    rw [div_lt_div_iff₀ hnR hnR]
    nlinarith
  have hθ1_pos := theta_pos hr1_nonneg
  have hθ1_lt := theta_lt_half_pi hr1_lt
  have hθ2_pos := theta_pos (le_trans hr1_nonneg hr12.le)
  have hθ2_le := theta_le_half_pi hr2_le
  have hθ12 := theta_strictMono hr12
  have hπ := Real.pi_pos
  have hcos1_pos : 0 < Real.cos (((i : ℝ) / n + 0.008) / (1 + 0.008) * Real.pi / 2) := by
    apply Real.cos_pos_of_mem_Ioo
    constructor
    · linarith
    · exact hθ1_lt
  have hcos2_nonneg :
      0 ≤ Real.cos ((((i : ℝ) + 1) / n + 0.008) / (1 + 0.008) * Real.pi / 2) := by
    apply Real.cos_nonneg_of_mem_Icc
    constructor
    · linarith
    · exact hθ2_le
  have hcos_lt :
      Real.cos ((((i : ℝ) + 1) / n + 0.008) / (1 + 0.008) * Real.pi / 2) <
        Real.cos (((i : ℝ) / n + 0.008) / (1 + 0.008) * Real.pi / 2) := by
    apply Real.strictAntiOn_cos
    · constructor
      · linarith
      · linarith
    · constructor
      · linarith
      · linarith
    · exact hθ12
  have hsq_lt :
      (Real.cos ((((i : ℝ) + 1) / n + 0.008) / (1 + 0.008) * Real.pi / 2)) ^ 2 <
        (Real.cos (((i : ℝ) / n + 0.008) / (1 + 0.008) * Real.pi / 2)) ^ 2 := by
    nlinarith
  have hsq1_pos : 0 < (Real.cos (((i : ℝ) / n + 0.008) / (1 + 0.008) * Real.pi / 2)) ^ 2 :=
    pow_pos hcos1_pos 2
  have hratio_lt_one :
      (Real.cos ((((i : ℝ) + 1) / n + 0.008) / (1 + 0.008) * Real.pi / 2)) ^ 2 /
        (Real.cos (((i : ℝ) / n + 0.008) / (1 + 0.008) * Real.pi / 2)) ^ 2 < 1 := by
    rw [div_lt_one hsq1_pos]
    exact hsq_lt
  constructor
  · apply lt_min
    · linarith
    · norm_num
  · calc min (1 -
        (Real.cos ((((i : ℝ) + 1) / n + 0.008) / (1 + 0.008) * Real.pi / 2)) ^ 2 /
        (Real.cos (((i : ℝ) / n + 0.008) / (1 + 0.008) * Real.pi / 2)) ^ 2) 0.999
        ≤ 0.999 := min_le_right _ _
    _ < 1 := by norm_num

lemma cosine_anneal_schedule_eq {bs be : ℝ} {n : ℕ} (hn1 : n ≠ 1) :
    NoiseScheduler.cosine_anneal_schedule bs be n =
      some ((List.range n).map (fun t : ℕ =>
        bs + 0.5 * (be - bs) * (1 - Real.cos ((t : ℝ) / ((n - 1 : ℕ) : ℝ) * Real.pi)))) := by
  rw [NoiseScheduler.cosine_anneal_schedule, if_neg hn1]

lemma cosine_anneal_mem_bounds {bs be : ℝ} (hab : bs ≤ be) {n : ℕ} {v : ℝ}
    (hv : v ∈ (List.range n).map (fun t : ℕ =>
      bs + 0.5 * (be - bs) * (1 - Real.cos ((t : ℝ) / ((n - 1 : ℕ) : ℝ) * Real.pi)))) :
    bs ≤ v ∧ v ≤ be := by
  rcases List.mem_map.mp hv with ⟨t, _, rfl⟩
  have hc1 : Real.cos ((t : ℝ) / ((n - 1 : ℕ) : ℝ) * Real.pi) ≤ 1 := Real.cos_le_one _
  have hc2 : -1 ≤ Real.cos ((t : ℝ) / ((n - 1 : ℕ) : ℝ) * Real.pi) := Real.neg_one_le_cos _
  constructor
  · nlinarith
  · nlinarith

lemma init_linear {n : ℕ} (hn1 : n ≠ 1) (bs be : ℝ) :
    NoiseScheduler.init "linear" n bs be =
      .ok (NoiseScheduler.linear_schedule bs be n) := by
  simp [NoiseScheduler.init, cosine_anneal_schedule_eq hn1, NoiseScheduler.valid_schedules]

lemma init_const {n : ℕ} (hn1 : n ≠ 1) (bs be : ℝ) :
    NoiseScheduler.init "const" n bs be =
      .ok (NoiseScheduler.constant_schedule be n) := by
  simp [NoiseScheduler.init, cosine_anneal_schedule_eq hn1, NoiseScheduler.valid_schedules]

lemma init_quad {n : ℕ} (hn1 : n ≠ 1) (bs be : ℝ) :
    NoiseScheduler.init "quad" n bs be =
      .ok (NoiseScheduler.quadratic_schedule bs be n) := by
  simp [NoiseScheduler.init, cosine_anneal_schedule_eq hn1, NoiseScheduler.valid_schedules]

lemma init_sigmoid {n : ℕ} (hn1 : n ≠ 1) (bs be : ℝ) :
    NoiseScheduler.init "sigmoid" n bs be =
      .ok (NoiseScheduler.sigmoid_schedule bs be n) := by
  simp [NoiseScheduler.init, cosine_anneal_schedule_eq hn1, NoiseScheduler.valid_schedules]

lemma init_cosine {n : ℕ} (hn1 : n ≠ 1) (bs be : ℝ) :
    NoiseScheduler.init "cosine" n bs be = .ok (NoiseScheduler.cosine_schedule n) := by
  simp [NoiseScheduler.init, cosine_anneal_schedule_eq hn1, NoiseScheduler.valid_schedules]

lemma init_cosine_anneal {n : ℕ} (hn1 : n ≠ 1) (bs be : ℝ) :
    NoiseScheduler.init "cosine_anneal" n bs be =
      .ok ((List.range n).map (fun t : ℕ =>
        bs + 0.5 * (be - bs) * (1 - Real.cos ((t : ℝ) / ((n - 1 : ℕ) : ℝ) * Real.pi)))) := by
  simp [NoiseScheduler.init, cosine_anneal_schedule_eq hn1, NoiseScheduler.valid_schedules]

/-- Entries of `betas` in `(0, 1)` make `alphas_cumprod` entrywise
non-increasing: the alphas lie in `(0, 1]` and prefix products of such
values decrease. -/
lemma alphas_cumprod_nonincreasing {betas : List ℝ}
    (h : ∀ b ∈ betas, 0 < b ∧ b < 1) :
    EntrywiseNonIncreasing (NoiseScheduler.alphas_cumprod betas) := by
  apply cumprod_entrywiseNonIncreasing
  intro a ha
  rcases List.mem_map.mp ha with ⟨b, hb, rfl⟩
  have := h b hb
  constructor
  · linarith [this.2]
  · linarith [this.1]

/-- C3: for every one of the six named schedule kinds and every
`n_steps ≥ 2` (with noise bounds `0 < beta_start ≤ beta_end < 1`, as in the
constructor's defaults `1e-5` and `1e-2`), construction succeeds and the
produced `betas` sequence has exactly `n_steps` entries, every entry lies
strictly between `0` and `1`, and the derived `alphas_cumprod` sequence is
entrywise non-increasing. -/
theorem claim_C3 (s : String) (n : ℕ) (bs be : ℝ) (hs : s ∈ sixNamedKinds)
    (hn : 2 ≤ n) (h0 : 0 < bs) (hab : bs ≤ be) (h1 : be < 1) :
    ∃ betas, NoiseScheduler.init s n bs be = Except.ok betas ∧
      betas.length = n ∧ (∀ b ∈ betas, 0 < b ∧ b < 1) ∧
      EntrywiseNonIncreasing (NoiseScheduler.alphas_cumprod betas) := by
  have hn1 : n ≠ 1 := by omega
  have hbe : 0 < be := lt_of_lt_of_le h0 hab
  have hs6 : s = "linear" ∨ s = "const" ∨ s = "quad" ∨ s = "sigmoid" ∨
      s = "cosine" ∨ s = "cosine_anneal" := by
    simpa [sixNamedKinds] using hs
  rcases hs6 with rfl | rfl | rfl | rfl | rfl | rfl
  · have hmem : ∀ b ∈ NoiseScheduler.linear_schedule bs be n, 0 < b ∧ b < 1 := by
      intro b hb
      have hb' : b ∈ linspace bs be n := hb
      have hbd := linspace_mem_bounds hab hb'
      exact ⟨lt_of_lt_of_le h0 hbd.1, lt_of_le_of_lt hbd.2 h1⟩
    exact ⟨_, init_linear hn1 bs be, linspace_length bs be n, hmem,
      alphas_cumprod_nonincreasing hmem⟩
  · have hmem : ∀ b ∈ NoiseScheduler.constant_schedule be n, 0 < b ∧ b < 1 := by
      intro b hb
      rw [constant_schedule_mem hb]
      exact ⟨hbe, h1⟩
    exact ⟨_, init_const hn1 bs be, constant_schedule_length be n, hmem,
      alphas_cumprod_nonincreasing hmem⟩
  · have hmem : ∀ b ∈ NoiseScheduler.quadratic_schedule bs be n, 0 < b ∧ b < 1 := by
      intro b hb
      have hbd := quadratic_schedule_mem_bounds h0 hab hb
      exact ⟨lt_of_lt_of_le h0 hbd.1, lt_of_le_of_lt hbd.2 h1⟩
    exact ⟨_, init_quad hn1 bs be, quadratic_schedule_length bs be n, hmem,
      alphas_cumprod_nonincreasing hmem⟩
  · have hmem : ∀ b ∈ NoiseScheduler.sigmoid_schedule bs be n, 0 < b ∧ b < 1 :=
      fun _ hb => sigmoid_schedule_mem hb
    exact ⟨_, init_sigmoid hn1 bs be, sigmoid_schedule_length bs be n, hmem,
      alphas_cumprod_nonincreasing hmem⟩
  · have hmem : ∀ b ∈ NoiseScheduler.cosine_schedule n, 0 < b ∧ b < 1 :=
      fun _ hb => cosine_schedule_mem (by omega) hb
    exact ⟨_, init_cosine hn1 bs be, cosine_schedule_length n, hmem,
      alphas_cumprod_nonincreasing hmem⟩
  · have hmem : ∀ b ∈ (List.range n).map (fun t : ℕ =>
        bs + 0.5 * (be - bs) * (1 - Real.cos ((t : ℝ) / ((n - 1 : ℕ) : ℝ) * Real.pi))),
        0 < b ∧ b < 1 := by
      intro b hb
      have hbd := cosine_anneal_mem_bounds hab hb
      exact ⟨lt_of_lt_of_le h0 hbd.1, lt_of_le_of_lt hbd.2 h1⟩
    exact ⟨_, init_cosine_anneal hn1 bs be, by simp, hmem,
      alphas_cumprod_nonincreasing hmem⟩

/-- Witness for C3 at the schedule kind `"linear"`, `n_steps = 2` and the
constructor's default noise bounds. -/
theorem claim_C3_witness :
    ∃ betas, NoiseScheduler.init "linear" 2 (1 / 100000) (1 / 100) = Except.ok betas ∧
      betas.length = 2 ∧ (∀ b ∈ betas, 0 < b ∧ b < 1) ∧
      EntrywiseNonIncreasing (NoiseScheduler.alphas_cumprod betas) :=
  claim_C3 "linear" 2 (1 / 100000) (1 / 100) (by simp [sixNamedKinds]) (by norm_num)
    (by norm_num) (by norm_num) (by norm_num)

lemma init_never_invalid_of_mem {s : String} {n : ℕ} {bs be : ℝ}
    (hm : s ∈ NoiseScheduler.valid_schedules) (e : List String) :
    NoiseScheduler.init s n bs be ≠ Except.error (.invalidSchedule e) := by
  rw [NoiseScheduler.init, if_pos hm]
  cases hca : NoiseScheduler.cosine_anneal_schedule bs be n with
  | none => simp
  | some ca => split_ifs <;> simp

lemma sixNamedKinds_subset_valid :
    ∀ s ∈ sixNamedKinds, s ∈ NoiseScheduler.valid_schedules := by decide

/-- C1 (counterexample): `"jsd"` is not one of the six named kinds, yet
construction with it does not raise the invalid-argument failure — the
`assert` accepts it and construction fails later with a `KeyError` from the
betas dict lookup. -/
theorem claim_C1_counterexample :
    "jsd" ∉ sixNamedKinds ∧
      NoiseScheduler.init "jsd" 2 (1 / 100000) (1 / 100) =
        Except.error (.keyError "jsd") := by
  constructor
  · decide
  · simp [NoiseScheduler.init, NoiseScheduler.valid_schedules,
      cosine_anneal_schedule_eq (by norm_num : (2 : ℕ) ≠ 1)]

/-- C1 (amended): construction raises the invalid-argument failure iff the
schedule is not in the seven-element `valid_schedules` list (the six named
kinds plus `"jsd"`), and the failure enumerates exactly that list; none of the
six named kinds ever raises an invalid-argument failure; `"jsd"` (a member of
`valid_schedules`) is accepted by the assert but, whenever `n_steps ≠ 1`,
construction then fails with a `KeyError` instead. -/
theorem claim_C1_amended (s : String) (n : ℕ) (bs be : ℝ) :
    (NoiseScheduler.init s n bs be =
        Except.error (.invalidSchedule NoiseScheduler.valid_schedules) ↔
      s ∉ NoiseScheduler.valid_schedules) ∧
    (s ∈ sixNamedKinds → ∀ e : List String,
      NoiseScheduler.init s n bs be ≠ Except.error (.invalidSchedule e)) ∧
    ("jsd" ∈ NoiseScheduler.valid_schedules ∧ "jsd" ∉ sixNamedKinds) ∧
    (n ≠ 1 → NoiseScheduler.init "jsd" n bs be = Except.error (.keyError "jsd")) := by
  refine ⟨⟨?_, ?_⟩, ?_, ⟨by decide, by decide⟩, ?_⟩
  · intro h
    by_cases hm : s ∈ NoiseScheduler.valid_schedules
    · exact absurd h (init_never_invalid_of_mem hm _)
    · exact hm
  · intro hm
    simp [NoiseScheduler.init, hm]
  · intro hs e
    exact init_never_invalid_of_mem (sixNamedKinds_subset_valid s hs) e
  · intro hn1
    simp [NoiseScheduler.init, cosine_anneal_schedule_eq hn1, NoiseScheduler.valid_schedules]

/-- Witness for C1 (amended): at the named kind `"linear"` the invalid-argument
failure is not raised. -/
theorem claim_C1_witness :
    NoiseScheduler.init "linear" 2 (1 / 100000) (1 / 100) ≠
      Except.error (.invalidSchedule sixNamedKinds) :=
  (claim_C1_amended "linear" 2 (1 / 100000) (1 / 100)).2.1 (by decide) sixNamedKinds

/-- C10: construction evaluates all six schedule generators eagerly, so with
`n_steps = 1` the `cosine_anneal` generator's division by `n_steps - 1`
raises for every schedule kind (every member of `valid_schedules`, in
particular `"linear"` and `"const"`): no kind can be constructed with a
single step. -/
theorem claim_C10 (s : String) (bs be : ℝ) (hs : s ∈ NoiseScheduler.valid_schedules) :
    NoiseScheduler.init s 1 bs be = Except.error .divisionByZero := by
  simp [NoiseScheduler.init, hs, NoiseScheduler.cosine_anneal_schedule]

/-- Witness for C10 at the kind `"linear"`. -/
theorem claim_C10_witness :
    NoiseScheduler.init "linear" 1 (1 / 100000) (1 / 100) =
      Except.error .divisionByZero :=
  claim_C10 "linear" (1 / 100000) (1 / 100) (by decide)

/-- C7: the sigmoid schedule equals, entrywise, the double-sigmoid
composition the spec describes: evenly spaced values in `[-6, 6]`, logistic,
affine rescale by `beta_end - beta_start` plus `beta_start`, logistic again. -/
theorem claim_C7 (bs be : ℝ) (n : ℕ) :
    NoiseScheduler.sigmoid_schedule bs be n = sigmoidScheduleSpec bs be n := by
  simp [NoiseScheduler.sigmoid_schedule, sigmoidScheduleSpec, List.map_map, Function.comp]

/-- C8: for the linear schedule with `n_steps ≥ 2` the first entry is
`beta_start`, the last entry is `beta_end`, and if `beta_start < beta_end`
the entries are strictly increasing. -/
theorem claim_C8 (bs be : ℝ) (n : ℕ) (hn : 2 ≤ n) :
    (NoiseScheduler.linear_schedule bs be n).getD 0 0 = bs ∧
    (NoiseScheduler.linear_schedule bs be n).getD (n - 1) 0 = be ∧
    (bs < be → StrictlyIncreasingEntries (NoiseScheduler.linear_schedule bs be n)) := by
  have h0 : (0 : ℕ) < n := by omega
  have hlast : n - 1 < n := by omega
  have hd : (0 : ℝ) < ((n - 1 : ℕ) : ℝ) := by
    exact_mod_cast (by omega : 0 < n - 1)
  refine ⟨?_, ?_, ?_⟩
  · rw [show NoiseScheduler.linear_schedule bs be n = linspace bs be n from rfl,
      linspace_getD bs be h0]
    simp
  · rw [show NoiseScheduler.linear_schedule bs be n = linspace bs be n from rfl,
      linspace_getD bs be hlast, mul_div_assoc, div_self hd.ne', mul_one]
    ring
  · intro hlt i j hij hj
    rw [show NoiseScheduler.linear_schedule bs be n = linspace bs be n from rfl,
      linspace_length] at hj
    have hi : i < n := lt_trans hij hj
    rw [show NoiseScheduler.linear_schedule bs be n = linspace bs be n from rfl,
      linspace_getD bs be hi, linspace_getD bs be hj]
    have hij' : (i : ℝ) < (j : ℝ) := by exact_mod_cast hij
    have hstep : (be - bs) * (i : ℝ) / ((n - 1 : ℕ) : ℝ) <
        (be - bs) * (j : ℝ) / ((n - 1 : ℕ) : ℝ) := by
      rw [div_lt_div_iff₀ hd hd]
      nlinarith [mul_pos (mul_pos (sub_pos.mpr hlt) hd) (sub_pos.mpr hij')]
    linarith

/-- Witness for C8 at `n_steps = 2` and the constructor's default bounds. -/
theorem claim_C8_witness :
    (NoiseScheduler.linear_schedule (1 / 100000) (1 / 100) 2).getD 0 0 = 1 / 100000 ∧
    (NoiseScheduler.linear_schedule (1 / 100000) (1 / 100) 2).getD (2 - 1) 0 = 1 / 100 ∧
    (1 / 100000 < (1 : ℝ) / 100 →
      StrictlyIncreasingEntries (NoiseScheduler.linear_schedule (1 / 100000) (1 / 100) 2)) :=
  claim_C8 (1 / 100000) (1 / 100) 2 (by norm_num)

/-- C2: `ConditionalGuidedConvModel.forward` equals, for every input, the
composition the spec describes — encode, batch-normalize, gated connection
layer with `t`, concatenate `[y_t, y_0_hat]` along the feature dimension,
elementwise product with the connection output, then the inner guided-linear
model at `x = None`, the product as `y_t`, `y_0_hat = None`, and the same
`t`. -/
theorem claim_C2 (m : ConditionalGuidedConvModel) (x y_t y_0_hat : Tensor2)
    (t : List ℕ) :
    ConditionalGuidedConvModel.forward m x y_t y_0_hat t =
      convForwardSpec m x y_t y_0_hat t := rfl

/-- C4: a `ConditionalGuidedLinearModel` constructed with `cat_x = false` and
`cat_y_pred = false` produces identical outputs for two forward calls that
agree on `y_t` and `t` but differ arbitrarily in `x` and `y_0_hat`. -/
theorem claim_C4 (n_steps x_dim y_dim : ℕ) (n_hidden : List ℕ) (n_outputs : ℕ)
    (act : ℝ → ℝ) (w : WeightInit) (x1 x2 y_t y01 y02 : Tensor2) (t : List ℕ) :
    (mkConditionalGuidedLinearModel n_steps x_dim y_dim n_hidden n_outputs
        false false act w).forward x1 y_t y01 t =
      (mkConditionalGuidedLinearModel n_steps x_dim y_dim n_hidden n_outputs
        false false act w).forward x2 y_t y02 t := rfl

/-- C5: `ConditionalGuidedConvModel` construction succeeds precisely when the
inner guide model has `cat_x = false`, `cat_y_pred = false`, and `y_dim`
equal to exactly twice the encoder's output width; any violation fails at
construction with the corresponding invalid-configuration failure. -/
theorem claim_C5 (e : Encoder) (c : ConditionalGuidedLinearModel) (w : ConvWeights) :
    (∃ m, ConditionalGuidedConvModel.init e c w = Except.ok m) ↔
      (c.cat_x = false ∧ c.cat_y_pred = false ∧ e.out_features * 2 = c.y_dim) := by
  cases hcx : c.cat_x <;> cases hcy : c.cat_y_pred <;>
    by_cases hw : e.out_features * 2 = c.y_dim <;>
      simp [ConditionalGuidedConvModel.init, hcx, hcy, hw]

/-- Witness for C5: a concrete well-configured pair is accepted. -/
theorem claim_C5_witness :
    ∃ m, ConditionalGuidedConvModel.init ⟨1, fun v => v⟩
        ⟨3, 1, 2, false, false, []⟩
        ⟨fun v => v, fun v => v, fun _ _ => 0, fun _ => 0, fun _ _ => 0⟩ =
      Except.ok m :=
  (claim_C5 ⟨1, fun v => v⟩ ⟨3, 1, 2, false, false, []⟩
    ⟨fun v => v, fun v => v, fun _ _ => 0, fun _ => 0, fun _ _ => 0⟩).mpr
    ⟨rfl, rfl, rfl⟩

lemma getD_map {α β : Type} (d : β) (f : α → β) (dflt : α) {l : List α} {j : ℕ}
    (hj : j < l.length) : (l.map f).getD j d = f (l.getD j dflt) := by
  rw [List.getD_eq_getElem?_getD, List.getElem?_map, List.getElem?_eq_getElem hj,
    List.getD_eq_getElem?_getD, List.getElem?_eq_getElem hj]
  rfl

/-- C9 (counterexample): for a rank-0 sample tensor `x`, the reshape list is
`[len t]` (Python `[1] * (len(shape) - 1)` is empty), so the result has rank
1, not the rank of `x`. -/
theorem claim_C9_counterexample :
    (NoiseScheduler.get_noisy_x_at_t [(1 : ℝ) / 2, 1 / 3] [0, 1]
        ⟨[], [(0 : ℝ)]⟩).map STensor.rank = some 1 ∧
      STensor.rank ⟨[], [(0 : ℝ)]⟩ = 0 := by
  constructor <;> rfl

/-- C9 (amended): for every schedule sequence, batch of in-range indices `t`,
and sample tensor `x`, the lookup returns a tensor whose first dimension is
`len t`, whose trailing dimensions are all size 1, whose rank is
`max (rank x) 1` (so it equals the rank of `x` whenever that rank is at
least 1; for a rank-0 `x` the result has rank 1), and whose `j`-th entry is
the schedule value at index `t[j]`. -/
theorem claim_C9_amended (input : List ℝ) (t : List ℕ) (x : STensor)
    (hrange : ∀ i ∈ t, i < input.length) :
    ∃ r, NoiseScheduler.get_noisy_x_at_t input t x = some r ∧
      r.shape = t.length :: List.replicate (x.rank - 1) 1 ∧
      r.rank = max x.rank 1 ∧
      (∀ s ∈ r.shape.tail, s = 1) ∧
      ∀ j, j < t.length → r.data.getD j 0 = input.getD (t.getD j 0) 0 := by
  refine ⟨⟨t.length :: List.replicate (x.rank - 1) 1, gather0 input t⟩, ?_, rfl, ?_, ?_, ?_⟩
  · rw [NoiseScheduler.get_noisy_x_at_t, STensor.reshape, if_pos]
    · simp [STensor.rank]
    · simp [List.prod_replicate]
  · show (t.length :: List.replicate (x.rank - 1) 1).length = max x.rank 1
    simp only [List.length_cons, List.length_replicate]
    omega
  · intro s hs
    exact List.eq_of_mem_replicate hs
  · intro j hj
    exact getD_map 0 (fun i => input.getD i 0) 0 hj

/-- Witness for C9 (amended) at a two-step schedule, indices `[0, 1]` and a
rank-2 sample tensor. -/
theorem claim_C9_witness :
    ∃ r, NoiseScheduler.get_noisy_x_at_t [(1 : ℝ) / 2, 1 / 3] [0, 1]
        ⟨[2, 3], List.replicate 6 0⟩ = some r ∧
      r.shape = 2 :: List.replicate ((STensor.rank ⟨[2, 3], List.replicate 6 0⟩) - 1) 1 ∧
      r.rank = max (STensor.rank ⟨[2, 3], List.replicate 6 0⟩) 1 ∧
      (∀ s ∈ r.shape.tail, s = 1) ∧
      ∀ j, j < ([0, 1] : List ℕ).length →
        r.data.getD j 0 = ([(1 : ℝ) / 2, 1 / 3]).getD (([0, 1] : List ℕ).getD j 0) 0 :=
  claim_C9_amended [(1 : ℝ) / 2, 1 / 3] [0, 1] ⟨[2, 3], List.replicate 6 0⟩ (by decide)

lemma diffusionSequential_append (l1 l2 : List DLayer) (inp : Tensor2) (t : List ℕ) :
    DiffusionSequential.forward (l1 ++ l2) inp t =
      DiffusionSequential.forward l2 (DiffusionSequential.forward l1 inp t) t := by
  simp [DiffusionSequential.forward, List.foldl_append]

/-- A pipeline stage that never changes the batch (row) dimension; the only
stage that could is the opaque normalization collaborator. -/
def DLayer.preservesRows : DLayer → Prop
  | .batchNorm f => ∀ x, (f x).rows = x.rows
  | _ => True

lemma dlayer_apply_rows : ∀ (l : DLayer), l.preservesRows →
    ∀ (x : Tensor2) (t : List ℕ), (l.apply x t).rows = x.rows
  | .condLinear _, _, _, _ => rfl
  | .linear _, _, _, _ => rfl
  | .activation _, _, _, _ => rfl
  | .batchNorm _, h, x, _ => h x

lemma diffusionSequential_rows {layers : List DLayer}
    (h : ∀ l ∈ layers, l.preservesRows) (inp : Tensor2) (t : List ℕ) :
    (DiffusionSequential.forward layers inp t).rows = inp.rows := by
  induction layers generalizing inp with
  | nil => rfl
  | cons a as ih =>
    rw [show DiffusionSequential.forward (a :: as) inp t =
      DiffusionSequential.forward as (a.apply inp t) t from rfl]
    rw [ih (fun l hl => h l (List.mem_cons_of_mem a hl)) (a.apply inp t)]
    exact dlayer_apply_rows a (h a (List.mem_cons_self a as)) inp t

lemma mk_layers_preserveRows (n_steps x_dim y_dim : ℕ) (n_hidden : List ℕ)
    (n_outputs : ℕ) (cat_x cat_y_pred : Bool) (act : ℝ → ℝ) (w : WeightInit) :
    ∀ l ∈ (mkConditionalGuidedLinearModel n_steps x_dim y_dim n_hidden n_outputs
      cat_x cat_y_pred act w).model, l.preservesRows := by
  intro l hl
  simp only [mkConditionalGuidedLinearModel, List.mem_append, List.mem_flatMap,
    List.mem_singleton] at hl
  rcases hl with ⟨i, _, hmem⟩ | rfl
  · simp only [List.mem_cons, List.mem_singleton, List.not_mem_nil, or_false] at hmem
    rcases hmem with rfl | rfl <;> trivial
  · trivial

lemma catDim1_rows (a : Tensor2) (l : List Tensor2) : (catDim1 a l).rows = a.rows := by
  induction l generalizing a with
  | nil => rfl
  | cons b bs ih =>
    show (catDim1 (hcat a b) bs).rows = a.rows
    rw [ih]
    rfl

lemma diffusionSequential_cols_final (A : List DLayer) (L : LinearLayer)
    (inp : Tensor2) (t : List ℕ) :
    (DiffusionSequential.forward (A ++ [DLayer.linear L]) inp t).cols = L.out_features := by
  rw [diffusionSequential_append]
  rfl

/-- The forward contract of `ConditionalGuidedLinearModel` as the
specification states it: the network input is the concatenation, in fixed
order `[y_t, y_0_hat, x]`, of exactly the flag-enabled components, run
through the gated stack, and the output of the final plain linear layer has
shape `[batch, n_outputs]`. -/
def ForwardContractOK (m : ConditionalGuidedLinearModel) (n_outputs : ℕ)
    (x y_t y_0_hat : Tensor2) (t : List ℕ) : Prop :=
  m.forward x y_t y_0_hat t =
    DiffusionSequential.forward m.model (specInput m.cat_x m.cat_y_pred x y_t y_0_hat) t ∧
  (m.forward x y_t y_0_hat t).rows = y_t.rows ∧
  (m.forward x y_t y_0_hat t).cols = n_outputs

/-- C6: for every flag setting, the forward pass of a constructed
`ConditionalGuidedLinearModel` satisfies the concatenation/shape contract
above, for shape-consistent inputs. -/
theorem claim_C6 (n_steps x_dim y_dim : ℕ) (n_hidden : List ℕ) (n_outputs : ℕ)
    (cat_x cat_y_pred : Bool) (act : ℝ → ℝ) (w : WeightInit)
    (x y_t y_0_hat : Tensor2) (t : List ℕ)
    (hx : x.cols = x_dim) (hyt : y_t.cols = y_dim) (hy0 : y_0_hat.cols = y_dim)
    (hxr : x.rows = y_t.rows) (hy0r : y_0_hat.rows = y_t.rows)
    (ht : t.length = 1 ∨ t.length = y_t.rows) :
    ForwardContractOK
      (mkConditionalGuidedLinearModel n_steps x_dim y_dim n_hidden n_outputs
        cat_x cat_y_pred act w) n_outputs x y_t y_0_hat t := by
  have hrows : ∀ inp : Tensor2,
      (DiffusionSequential.forward (mkConditionalGuidedLinearModel n_steps x_dim y_dim
        n_hidden n_outputs cat_x cat_y_pred act w).model inp t).rows = inp.rows :=
    fun inp => diffusionSequential_rows
      (mk_layers_preserveRows n_steps x_dim y_dim n_hidden n_outputs cat_x cat_y_pred act w)
      inp t
  refine ⟨?_, ?_, ?_⟩
  · cases cat_x <;> cases cat_y_pred <;> rfl
  · cases cat_x <;> cases cat_y_pred <;> exact hrows _
  · simp only [ConditionalGuidedLinearModel.forward, mkConditionalGuidedLinearModel]
    rw [diffusionSequential_cols_final]

/-- A zero-initialized weight record for concrete instantiations. -/
def sampleWeightInit : WeightInit :=
  ⟨fun _ _ _ => 0, fun _ _ => 0, fun _ _ _ => 0, fun _ _ => 0, fun _ => 0⟩

/-- A concrete `1 × 1` tensor for concrete instantiations. -/
def sampleTensor : Tensor2 := ⟨1, 1, fun _ _ => 0⟩

/-- Witness for C6 at a concrete model (`n_steps = 3`, `x_dim = y_dim = 1`,
one hidden layer of width 2, both flags false) and concrete inputs. -/
theorem claim_C6_witness :
    ForwardContractOK
      (mkConditionalGuidedLinearModel 3 1 1 [2] 1 false false (fun z => z)
        sampleWeightInit) 1 sampleTensor sampleTensor sampleTensor [0] :=
  claim_C6 3 1 1 [2] 1 false false (fun z => z) sampleWeightInit
    sampleTensor sampleTensor sampleTensor [0] rfl rfl rfl rfl rfl (Or.inl rfl)
